import Mathlib

/-!
Shallow embedding of the CLIsnake game core (src/src/lib.rs).

Conventions of the embedding:
* Rust `isize` coordinates become `Int`; `usize` indices become `Nat`.
* Code that can panic (`unwrap`, slice indexing, `Vec` indexing with an
  out-of-range index) is modelled with `Option`: `none` is a panic.
  A Rust `as usize` cast of a negative `isize` yields a huge index, so an
  indexing operation after such a cast is modelled as `none`.
* The random source (`rand::thread_rng` fed to `SliceRandom::choose`) is
  modelled by a `Nat` parameter `k`: `choose` on a non-empty list `l`
  returns element `k % l.length`, and `none` on the empty list, exactly
  the success/failure behaviour of the Rust call.
* Terminal output (`Field::draw`, `println!`) has no effect on game state;
  only the score arithmetic embedded in the output is modelled.
* The key-event stream is modelled as a `List Event`; an empty stream at a
  bounded poll is the poll timeout, an exhausted stream inside the
  unbounded pause wait models blocking forever.
-/

namespace CLIsnake

/-- `enum State` (lib.rs lines 30-34). -/
inductive State where
  | playing
  | lost
  deriving DecidableEq, Repr

/-- `struct Position` (lib.rs lines 42-46): a pair of `isize` coordinates. -/
structure Position where
  x : Int
  y : Int
  deriving DecidableEq, Repr

instance : Inhabited Position := ⟨⟨0, 0⟩⟩

/-- `enum Direction` (lib.rs lines 101-108); `Right` is the `#[default]`. -/
inductive Direction where
  | up
  | right
  | down
  | left
  deriving DecidableEq, Repr

instance : Inhabited Direction := ⟨Direction.right⟩

/-- `enum Block` (lib.rs lines 61-68). -/
inductive Block where
  | empty
  | snake
  | snakeHead (d : Direction)
  | wall
  | food
  deriving DecidableEq, Repr

/-- `Position::step` (lib.rs lines 48-59): move one cell along a direction. -/
def Position.step (p : Position) (direction : Direction) : Position :=
  match direction with
  | Direction.up => { p with y := p.y - 1 }
  | Direction.right => { p with x := p.x + 1 }
  | Direction.down => { p with y := p.y + 1 }
  | Direction.left => { p with x := p.x - 1 }

/-- `Direction::set` (lib.rs lines 110-120): commit a requested direction
unless it is the exact 180-degree reversal of the current one. -/
def Direction.set (current requested : Direction) : Direction :=
  match current, requested with
  | Direction.down, Direction.up => current
  | Direction.up, Direction.down => current
  | Direction.left, Direction.right => current
  | Direction.right, Direction.left => current
  | _, _ => requested

/-- The exact opposite of a heading (spec vocabulary used to state the
reversal-suppression property; the source writes the four pairs out). -/
def Direction.opposite : Direction → Direction
  | Direction.up => Direction.down
  | Direction.down => Direction.up
  | Direction.left => Direction.right
  | Direction.right => Direction.left

/-- `struct Field` (lib.rs lines 122-126): the grid, row-major storage. -/
structure Field where
  width : Nat
  height : Nat
  field : List (List Block)
  deriving DecidableEq, Repr

/-- `Field::new` (lib.rs lines 128-135): `height` rows of `width` cells,
all `Empty`. -/
def Field.new (width height : Nat) : Field :=
  { width := width, height := height,
    field := List.replicate height (List.replicate width Block.empty) }

/-- `Field::set_position` (lib.rs lines 137-141): `self.field[y][x] = block`.
A negative coordinate, cast `as usize`, becomes a huge index, and any
out-of-range index panics: both are `none` here. -/
def Field.set_position (f : Field) (position : Position) (block : Block) :
    Option Field :=
  if 0 ≤ position.x ∧ 0 ≤ position.y then
    (f.field.get? position.y.toNat).bind fun row =>
      if position.x.toNat < row.length then
        some { f with
               field := f.field.set position.y.toNat
                          (row.set position.x.toNat block) }
      else none
  else none

/-- `Field::get_position` (lib.rs lines 143-156): out-of-range coordinates
short-circuit to `Wall`; in range, the stored marker is read with two
`unwrap`s (`none` models those panics). -/
def Field.get_position (f : Field) (position : Position) : Option Block :=
  if position.x < 0 ∨ (f.width : Int) ≤ position.x then some Block.wall
  else if position.y < 0 ∨ (f.height : Int) ≤ position.y then some Block.wall
  else (f.field.get? position.y.toNat).bind fun row =>
    row.get? position.x.toNat

/-- The coordinate ranges accepted by the bounds checks of
`Field::get_position`. -/
def Field.InB (f : Field) (p : Position) : Prop :=
  0 ≤ p.x ∧ p.x < (f.width : Int) ∧ 0 ≤ p.y ∧ p.y < (f.height : Int)

instance (f : Field) (p : Position) : Decidable (f.InB p) := by
  unfold Field.InB; infer_instance

/-- Shape invariant of the storage: exactly `height` rows of exactly
`width` cells, as established by `Field::new`. -/
def Field.WF (f : Field) : Prop :=
  f.field.length = f.height ∧ ∀ row ∈ f.field, row.length = f.width

instance (f : Field) : Decidable (f.WF) := by
  unfold Field.WF; infer_instance

/-- The scan of `Field::place_food` (lib.rs lines 159-167): all coordinates
with an `Empty` marker, in row-major order `y` in `0..height`, `x` in
`0..width`. -/
def Field.allowed_positions (f : Field) : List Position :=
  (List.range f.height).flatMap fun (y : Nat) =>
    (List.range f.width).filterMap fun (x : Nat) =>
      let position : Position := ⟨(x : Int), (y : Int)⟩
      if f.get_position position = some Block.empty then some position
      else none

/-- `Field::place_food` (lib.rs lines 158-171): choose an `Empty` cell at
random (`k` models the random draw; `choose` on an empty list returns
`None` and the `unwrap` panics) and mark it `Food`. -/
def Field.place_food (f : Field) (k : Nat) : Option Field :=
  match f.allowed_positions.get? (k % f.allowed_positions.length) with
  | none => none
  | some chosen => f.set_position chosen Block.food

/-- Count of cells satisfying a predicate, over the raw storage. -/
def Field.countB (f : Field) (pred : Block → Bool) : Nat :=
  (f.field.map fun row => row.countP pred).sum

def Block.isEmptyCell : Block → Bool
  | Block.empty => true
  | _ => false

def Block.isFoodCell : Block → Bool
  | Block.food => true
  | _ => false

/-- A marker recording snake occupancy: `Snake` or `SnakeHead(_)`. -/
def Block.isBodyMark : Block → Bool
  | Block.snake => true
  | Block.snakeHead _ => true
  | _ => false

def Block.isHeadMark : Block → Bool
  | Block.snakeHead _ => true
  | _ => false

/-- Total `Empty` cell count of the grid. -/
def Field.count_empty (f : Field) : Nat := f.countB Block.isEmptyCell

/-- Total `Food` cell count of the grid. -/
def Field.count_food (f : Field) : Nat := f.countB Block.isFoodCell

/-- The score the bottom border of `Field::draw` embeds
(lib.rs line 188: `format!("score: {}", length - 2)`). Rust `usize`
subtraction panics on underflow; truncated `Nat` subtraction agrees on
every session state, whose body length is at least 2. -/
def draw_score (length : Nat) : Nat := length - 2

/-- `struct Game` (lib.rs lines 35-40). The snake is the deque front-first:
head of the list = front of the `VecDeque` = snake head. `cycle_time`
is the `f64` nanosecond budget; no claim depends on its arithmetic, so
it is carried as a rational. -/
structure Game where
  snake : List Position
  direction : Direction
  field : Field
  cycle_time : ℚ
  deriving DecidableEq, Repr

/-- `Game::update` (lib.rs lines 260-287): one simulation step. `k` is the
random draw used by `place_food` in the `Food` branch. -/
def Game.update (g : Game) (k : Nat) : Option (State × Game) :=
  match g.snake with
  | [] => none
  | old_head :: rest =>
    let new_head := old_head.step g.direction
    let snake1 := new_head :: old_head :: rest
    let tl := snake1.getLast (List.cons_ne_nil _ _)
    match g.field.get_position new_head with
    | some Block.empty =>
      (g.field.set_position new_head (Block.snakeHead g.direction)).bind
        fun f1 => (f1.set_position old_head Block.snake).bind
        fun f2 => (f2.set_position tl Block.empty).map
        fun f3 => (State.playing, { g with field := f3,
                                           snake := snake1.dropLast })
    | some Block.food =>
      (g.field.set_position new_head (Block.snakeHead g.direction)).bind
        fun f1 => (f1.set_position old_head Block.snake).bind
        fun f2 => (f2.place_food k).map
        fun f3 => (State.playing, { g with field := f3, snake := snake1 })
    | none => none
    | some _ => some (State.lost, { g with snake := snake1 })

/-- The score printed by `Game::play` on the `Lost` path
(lib.rs line 252: `self.snake.len() - 3`), evaluated on the state left by
the losing `update`, whose tentative head push was not undone. -/
def Game.game_over_score (g : Game) : Nat := g.snake.length - 3

/-- `Game::new` (lib.rs lines 204-232), with the terminal size and the
random draw of the initial `place_food` as parameters. Terminal-mode side
effects are external; the `u16` size arithmetic is carried on `Nat`
(truncated subtraction stands in for the underflow panic on degenerate
terminal sizes). -/
def Game.new (term_width term_height k : Nat) : Option Game :=
  let width := term_width / 2 - 2
  let height := term_height - 2
  let initial_position : Position :=
    ⟨(width : Int) / 2, (height : Int) / 2⟩
  let tail_position : Position :=
    { initial_position with x := initial_position.x - 1 }
  let field0 := Field.new width height
  (field0.set_position initial_position
      (Block.snakeHead (default : Direction))).bind fun f1 =>
    (f1.set_position tail_position Block.snake).bind fun f2 =>
    (f2.place_food k).map fun f3 =>
    { snake := [initial_position, tail_position],
      direction := default,
      field := f3,
      cycle_time := 300 * 1000 * 1000 }

/-- The key modifiers the program distinguishes (crossterm
`KeyModifiers`): none, control, anything else. -/
inductive Modifiers where
  | noMod
  | control
  | otherMod
  deriving DecidableEq, Repr

/-- The key codes the program distinguishes (crossterm `KeyCode`). -/
inductive KeyCode where
  | up
  | right
  | down
  | left
  | char (c : Char)
  | otherKey
  deriving DecidableEq, Repr

/-- A crossterm event as the program sees it: a key event with its
modifiers, or any other event. -/
inductive Event where
  | key (code : KeyCode) (modifiers : Modifiers)
  | otherEvent
  deriving DecidableEq, Repr

/-- The pause key: `KeyCode::Char('p')` with `KeyModifiers::NONE`
(lib.rs lines 19-21 and 317-319). -/
def pauseEvent : Event := Event.key (KeyCode.char 'p') Modifiers.noMod

/-- `wait_for_unpause` (lib.rs lines 16-28): read events until the pause
key appears again; `none` models blocking forever on an exhausted
stream. The game state is untouched (the function captures nothing). -/
def wait_for_unpause : List Event → Option (List Event)
  | [] => none
  | e :: rest =>
    if e = pauseEvent then some rest else wait_for_unpause rest

/-- Result of `Game::poll_key` over an event stream. -/
inductive PollOutcome where
  | intent (d : Option Direction) (rest : List Event)
  | forceQuit (rest : List Event)
  | blocked
  deriving DecidableEq, Repr

/-- `Game::poll_key` (lib.rs lines 289-331). The function takes `&self`
only (it reads `cycle_time` for the poll timeout and draws the field on
pause), so it cannot mutate the game; the embedding maps the event
stream to the produced intent and the remaining stream. An empty stream
is the poll timeout; `Ctrl-C` is `exit(1)`; the pause key enters
`wait_for_unpause`. -/
def poll_key : List Event → PollOutcome
  | [] => PollOutcome.intent none []
  | e :: rest =>
    match e with
    | Event.key KeyCode.up Modifiers.noMod =>
      PollOutcome.intent (some Direction.up) rest
    | Event.key (KeyCode.char 'k') Modifiers.noMod =>
      PollOutcome.intent (some Direction.up) rest
    | Event.key (KeyCode.char 'w') Modifiers.noMod =>
      PollOutcome.intent (some Direction.up) rest
    | Event.key KeyCode.right Modifiers.noMod =>
      PollOutcome.intent (some Direction.right) rest
    | Event.key (KeyCode.char 'l') Modifiers.noMod =>
      PollOutcome.intent (some Direction.right) rest
    | Event.key (KeyCode.char 'd') Modifiers.noMod =>
      PollOutcome.intent (some Direction.right) rest
    | Event.key KeyCode.down Modifiers.noMod =>
      PollOutcome.intent (some Direction.down) rest
    | Event.key (KeyCode.char 'j') Modifiers.noMod =>
      PollOutcome.intent (some Direction.down) rest
    | Event.key (KeyCode.char 's') Modifiers.noMod =>
      PollOutcome.intent (some Direction.down) rest
    | Event.key KeyCode.left Modifiers.noMod =>
      PollOutcome.intent (some Direction.left) rest
    | Event.key (KeyCode.char 'h') Modifiers.noMod =>
      PollOutcome.intent (some Direction.left) rest
    | Event.key (KeyCode.char 'a') Modifiers.noMod =>
      PollOutcome.intent (some Direction.left) rest
    | Event.key (KeyCode.char 'c') Modifiers.control =>
      PollOutcome.forceQuit rest
    | Event.key (KeyCode.char 'p') Modifiers.noMod =>
      match wait_for_unpause rest with
      | some rest2 => PollOutcome.intent none rest2
      | none => PollOutcome.blocked
    | _ => PollOutcome.intent none rest

/-- The heading-application phase of one `Game::play` iteration
(lib.rs lines 238-240): commit the polled intent, if any, through
`Direction::set`. -/
def Game.apply_intent (g : Game) (d : Option Direction) : Game :=
  match d with
  | some direction => { g with direction := g.direction.set direction }
  | none => g

/-- Boolean reading of the marker stored at a coordinate. -/
def Field.cellPred (f : Field) (p : Position) (pred : Block → Bool) : Bool :=
  match f.get_position p with
  | some v => pred v
  | none => false

/-- The Grid/body lockstep invariant: the storage is well-shaped, the body
sequence is non-empty and duplicate-free, its front is marked
`SnakeHead(_)`, every other element is marked `Snake`, and every cell of
the grid marked `Snake` or `SnakeHead(_)` is a coordinate of the body
sequence. -/
def Game.Inv (g : Game) : Prop :=
  g.field.WF ∧
  g.snake ≠ [] ∧
  g.snake.Nodup ∧
  g.field.cellPred g.snake.headI Block.isHeadMark = true ∧
  (∀ p ∈ g.snake.tail, g.field.get_position p = some Block.snake) ∧
  ∀ y < g.field.height, ∀ x < g.field.width,
    g.field.cellPred ⟨(x : Int), (y : Int)⟩ Block.isBodyMark = true →
    (⟨(x : Int), (y : Int)⟩ : Position) ∈ g.snake

instance (g : Game) : Decidable g.Inv := by
  unfold Game.Inv; infer_instance

/-! ### Concrete games used by the witnesses -/

/-- A 2-by-1 game about to step out of the left boundary. -/
def Gout : Game :=
  { snake := [⟨0, 0⟩, ⟨1, 0⟩], direction := Direction.left,
    field := { width := 2, height := 1,
               field := [[Block.snakeHead Direction.left, Block.snake]] },
    cycle_time := 300 }

/-- A 2-by-1 game about to step into its own tail. -/
def Gtail : Game :=
  { snake := [⟨1, 0⟩, ⟨0, 0⟩], direction := Direction.left,
    field := { width := 2, height := 1,
               field := [[Block.snake, Block.snakeHead Direction.left]] },
    cycle_time := 300 }

/-- A 3-by-3 game about to step into an empty cell. -/
def G3 : Game :=
  { snake := [⟨1, 1⟩, ⟨0, 1⟩], direction := Direction.right,
    field := { width := 3, height := 3,
               field := [[Block.empty, Block.empty, Block.empty],
                         [Block.snake, Block.snakeHead Direction.right,
                          Block.empty],
                         [Block.empty, Block.empty, Block.food]] },
    cycle_time := 300 }

/-- The state after one step of `G3`. -/
def G3res : Game :=
  { snake := [⟨2, 1⟩, ⟨1, 1⟩], direction := Direction.right,
    field := { width := 3, height := 3,
               field := [[Block.empty, Block.empty, Block.empty],
                         [Block.empty, Block.snake,
                          Block.snakeHead Direction.right],
                         [Block.empty, Block.empty, Block.food]] },
    cycle_time := 300 }

/-- A 3-by-3 game about to step onto the food cell. -/
def GF : Game :=
  { snake := [⟨1, 1⟩, ⟨0, 1⟩], direction := Direction.right,
    field := { width := 3, height := 3,
               field := [[Block.empty, Block.empty, Block.empty],
                         [Block.snake, Block.snakeHead Direction.right,
                          Block.food],
                         [Block.empty, Block.empty, Block.empty]] },
    cycle_time := 300 }

/-! ### Basic lemmas about the grid operations -/

theorem Field.set_position_eq_some {f : Field} {p : Position} {b : Block}
    {f' : Field} (h : f.set_position p b = some f') :
    0 ≤ p.x ∧ 0 ≤ p.y ∧ ∃ row, f.field.get? p.y.toNat = some row ∧
      p.x.toNat < row.length ∧
      f' = { f with field := f.field.set p.y.toNat
                      (row.set p.x.toNat b) } := by
  unfold Field.set_position at h
  split at h
  · rename_i hxy
    rcases hrow : f.field.get? p.y.toNat with _ | row
    · rw [hrow, Option.none_bind] at h; exact absurd h (by simp)
    · rw [hrow, Option.some_bind] at h
      split at h
      · rename_i hx
        exact ⟨hxy.1, hxy.2, row, rfl, hx, (Option.some_inj.mp h).symm⟩
      · exact absurd h (by simp)
  · exact absurd h (by simp)

theorem Field.set_position_dims {f : Field} {p : Position} {b : Block}
    {f' : Field} (h : f.set_position p b = some f') :
    f'.width = f.width ∧ f'.height = f.height := by
  obtain ⟨-, -, row, -, -, rfl⟩ := Field.set_position_eq_some h
  exact ⟨rfl, rfl⟩

theorem Field.WF.set_position {f : Field} {p : Position} {b : Block}
    {f' : Field} (hwf : f.WF) (h : f.set_position p b = some f') :
    f'.WF := by
  obtain ⟨-, -, row, hrow, -, rfl⟩ := Field.set_position_eq_some h
  have hrow_mem : row ∈ f.field := List.get?_mem hrow
  refine ⟨by simpa using hwf.1, ?_⟩
  intro r hr
  rcases List.mem_or_eq_of_mem_set hr with hr' | rfl
  · exact hwf.2 r hr'
  · simpa using hwf.2 row hrow_mem

theorem Field.get_position_of_not_inB {f : Field} {p : Position}
    (h : ¬ f.InB p) : f.get_position p = some Block.wall := by
  unfold Field.InB at h
  unfold Field.get_position
  split
  · rfl
  · rename_i h1
    split
    · rfl
    · rename_i h2
      exfalso
      push_neg at h h1 h2
      omega

theorem Field.get_position_inB {f : Field} {p : Position} (hp : f.InB p) :
    f.get_position p = (f.field.get? p.y.toNat).bind fun row =>
      row.get? p.x.toNat := by
  obtain ⟨h1, h2, h3, h4⟩ := hp
  unfold Field.get_position
  rw [if_neg (by push_neg; exact ⟨h1, h2⟩), if_neg (by push_neg; exact ⟨h3, h4⟩)]

theorem Field.WF.get_position_isSome {f : Field} (hwf : f.WF) {p : Position}
    (hp : f.InB p) : ∃ b, f.get_position p = some b := by
  obtain ⟨h1, h2, h3, h4⟩ := hp
  have hy : p.y.toNat < f.field.length := by rw [hwf.1]; omega
  have hrow : f.field.get? p.y.toNat = some (f.field.get ⟨p.y.toNat, hy⟩) :=
    List.get?_eq_get hy
  have hx : p.x.toNat < (f.field.get ⟨p.y.toNat, hy⟩).length := by
    rw [hwf.2 _ (List.get?_mem hrow)]; omega
  refine ⟨(f.field.get ⟨p.y.toNat, hy⟩).get ⟨p.x.toNat, hx⟩, ?_⟩
  rw [Field.get_position_inB ⟨h1, h2, h3, h4⟩, hrow, Option.some_bind,
    List.get?_eq_get hx]

theorem Field.get_position_ne_wall_inB {f : Field} {p : Position} {v : Block}
    (h : f.get_position p = some v) (hv : v ≠ Block.wall) : f.InB p := by
  by_contra hq
  rw [Field.get_position_of_not_inB hq] at h
  exact hv (Option.some_inj.mp h).symm

theorem Field.WF.set_position_isSome {f : Field} (hwf : f.WF) {p : Position}
    (hp : f.InB p) (b : Block) : ∃ f', f.set_position p b = some f' := by
  obtain ⟨h1, h2, h3, h4⟩ := hp
  have hy : p.y.toNat < f.field.length := by rw [hwf.1]; omega
  have hrow : f.field.get? p.y.toNat = some (f.field.get ⟨p.y.toNat, hy⟩) :=
    List.get?_eq_get hy
  have hx : p.x.toNat < (f.field.get ⟨p.y.toNat, hy⟩).length := by
    rw [hwf.2 _ (List.get?_mem hrow)]; omega
  refine
    ⟨{ f with
       field :=
         f.field.set p.y.toNat ((f.field.get ⟨p.y.toNat, hy⟩).set p.x.toNat b) },
     ?_⟩
  unfold Field.set_position
  rw [if_pos ⟨h1, h3⟩, hrow, Option.some_bind, if_pos hx]

theorem Field.set_position_inB {f : Field} {p : Position} {b : Block}
    {f' : Field} (hwf : f.WF) (h : f.set_position p b = some f') :
    f.InB p := by
  obtain ⟨hpx, hpy, row, hrow, hx, rfl⟩ := Field.set_position_eq_some h
  obtain ⟨hy, -⟩ := List.get?_eq_some.mp hrow
  have hrowlen : row.length = f.width := hwf.2 row (List.get?_mem hrow)
  have hlen : f.field.length = f.height := hwf.1
  exact ⟨hpx, by omega, hpy, by omega⟩

/-- The pointwise effect of a successful `set_position` on `get_position`. -/
theorem Field.get_position_set {f : Field} {p : Position} {b : Block}
    {f' : Field} (hwf : f.WF) (h : f.set_position p b = some f')
    (q : Position) :
    f'.get_position q = if q = p then some b else f.get_position q := by
  have hpInB : f.InB p := Field.set_position_inB hwf h
  obtain ⟨hpx, hpy, row, hrow, hx, rfl⟩ := Field.set_position_eq_some h
  obtain ⟨hy, -⟩ := List.get?_eq_some.mp hrow
  set F := f.field.set p.y.toNat (row.set p.x.toNat b) with hF
  by_cases hq : f.InB q
  · obtain ⟨hq1, hq2, hq3, hq4⟩ := hq
    have hq' : Field.InB { f with field := F } q := ⟨hq1, hq2, hq3, hq4⟩
    rw [Field.get_position_inB hq', Field.get_position_inB ⟨hq1, hq2, hq3, hq4⟩]
    by_cases hqp : q = p
    · subst hqp
      rw [if_pos rfl]
      show (F.get? q.y.toNat).bind _ = _
      rw [hF, List.get?_set_eq_of_lt _ hy, Option.some_bind,
        List.get?_set_eq_of_lt _ hx]
    · rw [if_neg hqp]
      show (F.get? q.y.toNat).bind _ = _
      by_cases hyy : p.y.toNat = q.y.toNat
      · have hxx : p.x.toNat ≠ q.x.toNat := by
          intro hc
          have hx' : q.x = p.x := by omega
          have hy' : q.y = p.y := by omega
          exact hqp (by cases p; cases q; simp_all)
        rw [hF, ← hyy, List.get?_set_eq_of_lt _ hy, Option.some_bind, ← hyy,
          hrow] at *
        rw [Option.some_bind, List.get?_set_ne _ _ hxx]
      · rw [hF, List.get?_set_ne _ _ hyy]
  · have hq' : ¬ Field.InB { f with field := F } q := hq
    rw [Field.get_position_of_not_inB hq', Field.get_position_of_not_inB hq,
      if_neg (fun hc => hq (by rw [hc]; exact hpInB))]

theorem countP_set_aux {α : Type} (p : α → Bool) :
    ∀ (l : List α) (i : Nat) (a v : α), l.get? i = some v →
      (l.set i a).countP p + (if p v then 1 else 0)
        = l.countP p + (if p a then 1 else 0) := by
  intro l
  induction l with
  | nil => intro i a v hv; simp at hv
  | cons hd tl ih =>
    intro i a v hv
    cases i with
    | zero =>
      simp only [List.get?] at hv
      cases hv
      simp only [List.set, List.countP_cons]
      omega
    | succ n =>
      simp only [List.get?] at hv
      have := ih n a v hv
      simp only [List.set, List.countP_cons]
      omega

theorem sum_map_set_aux {α : Type} (g : α → Nat) :
    ∀ (l : List α) (i : Nat) (a v : α), l.get? i = some v →
      ((l.set i a).map g).sum + g v = (l.map g).sum + g a := by
  intro l
  induction l with
  | nil => intro i a v hv; simp at hv
  | cons hd tl ih =>
    intro i a v hv
    cases i with
    | zero =>
      simp only [List.get?] at hv
      cases hv
      simp only [List.set, List.map_cons, List.sum_cons]
      omega
    | succ n =>
      simp only [List.get?] at hv
      have := ih n a v hv
      simp only [List.set, List.map_cons, List.sum_cons]
      omega

/-- A successful `set_position` moves the per-predicate cell count by the
difference between the old and the new marker. -/
theorem Field.countB_set {f : Field} {p : Position} {b : Block} {f' : Field}
    (hwf : f.WF) (h : f.set_position p b = some f') (pred : Block → Bool)
    {ov : Block} (hov : f.get_position p = some ov) :
    f'.countB pred + (if pred ov then 1 else 0)
      = f.countB pred + (if pred b then 1 else 0) := by
  have hpInB : f.InB p := Field.set_position_inB hwf h
  obtain ⟨hpx, hpy, row, hrow, hx, rfl⟩ := Field.set_position_eq_some h
  rw [Field.get_position_inB hpInB, hrow, Option.some_bind] at hov
  unfold Field.countB
  dsimp only
  have houter := sum_map_set_aux (fun r => r.countP pred) f.field p.y.toNat
    (row.set p.x.toNat b) row hrow
  have hinner := countP_set_aux pred row p.x.toNat b ov hov
  simp only at houter
  omega

/-- Characterization of the `place_food` candidate list. -/
theorem Field.mem_allowed_positions {f : Field} {p : Position} :
    p ∈ f.allowed_positions ↔
      (∃ x y : Nat, x < f.width ∧ y < f.height ∧ p = ⟨(x : Int), (y : Int)⟩) ∧
      f.get_position p = some Block.empty := by
  unfold Field.allowed_positions
  constructor
  · intro hp
    obtain ⟨y, hy, hpin⟩ := List.mem_flatMap.mp hp
    obtain ⟨x, hx, hif⟩ := List.mem_filterMap.mp hpin
    simp only at hif
    by_cases hc : f.get_position ⟨(x : Int), (y : Int)⟩ = some Block.empty
    · rw [if_pos hc] at hif
      cases hif
      exact ⟨⟨x, y, List.mem_range.mp hx, List.mem_range.mp hy, rfl⟩, hc⟩
    · rw [if_neg hc] at hif
      cases hif
  · rintro ⟨⟨x, y, hx, hy, rfl⟩, hget⟩
    refine List.mem_flatMap.mpr ⟨y, List.mem_range.mpr hy, ?_⟩
    refine List.mem_filterMap.mpr ⟨x, List.mem_range.mpr hx, ?_⟩
    simp only
    rw [if_pos hget]

theorem Field.mem_allowed_of_empty {f : Field} {q : Position}
    (hq : f.get_position q = some Block.empty) :
    q ∈ f.allowed_positions := by
  have hInB := Field.get_position_ne_wall_inB hq (by simp)
  obtain ⟨h1, h2, h3, h4⟩ := hInB
  rw [Field.mem_allowed_positions]
  refine ⟨⟨q.x.toNat, q.y.toNat, by omega, by omega, ?_⟩, hq⟩
  cases q
  simp only [Position.mk.injEq]
  dsimp only at h1 h2 h3 h4
  constructor <;> omega

/-- `place_food` succeeds on a well-formed grid with an `Empty` cell, and
the chosen cell is one of the `Empty` cells. -/
theorem Field.place_food_spec {f : Field} {k : Nat} (hwf : f.WF)
    (hne : f.allowed_positions ≠ []) :
    ∃ chosen f', f.place_food k = some f' ∧
      f.get_position chosen = some Block.empty ∧
      f.set_position chosen Block.food = some f' := by
  have hlen : 0 < f.allowed_positions.length := List.length_pos.mpr hne
  have hlt : k % f.allowed_positions.length < f.allowed_positions.length :=
    Nat.mod_lt _ hlen
  have hchosen := List.get?_eq_get hlt
  have hmem : f.allowed_positions.get ⟨_, hlt⟩ ∈ f.allowed_positions :=
    List.get?_mem hchosen
  have hempty : f.get_position (f.allowed_positions.get ⟨_, hlt⟩)
      = some Block.empty := (Field.mem_allowed_positions.mp hmem).2
  have hInB : f.InB (f.allowed_positions.get ⟨_, hlt⟩) :=
    Field.get_position_ne_wall_inB hempty (by simp)
  obtain ⟨f', hf'⟩ := hwf.set_position_isSome hInB Block.food
  refine ⟨f.allowed_positions.get ⟨_, hlt⟩, f', ?_, hempty, hf'⟩
  unfold Field.place_food
  rw [hchosen]
  exact hf'

/-- Inversion of a successful `place_food`. -/
theorem Field.place_food_eq_some {f f' : Field} {k : Nat}
    (h : f.place_food k = some f') :
    ∃ chosen, chosen ∈ f.allowed_positions ∧
      f.set_position chosen Block.food = some f' := by
  unfold Field.place_food at h
  rcases hc : f.allowed_positions.get?
      (k % f.allowed_positions.length) with _ | chosen
  · rw [hc] at h; exact absurd h (by simp)
  · rw [hc] at h
    exact ⟨chosen, List.get?_mem hc, h⟩

/-! ### The lockstep invariant of the Grid and the body sequence -/

theorem Game.Inv.mark_mem {g : Game} (hInv : g.Inv) {p : Position} {v : Block}
    (hget : g.field.get_position p = some v) (hv : v.isBodyMark = true) :
    p ∈ g.snake := by
  obtain ⟨hwf, hne, hnd, hhead, hbody, hgrid⟩ := hInv
  have hInB : g.field.InB p := Field.get_position_ne_wall_inB hget (by
    intro hc; subst hc; simp [Block.isBodyMark] at hv)
  obtain ⟨h1, h2, h3, h4⟩ := hInB
  have hmem := hgrid p.y.toNat (by omega) p.x.toNat (by omega)
  have hp : (⟨(p.x.toNat : Int), (p.y.toNat : Int)⟩ : Position) = p := by
    cases p
    simp only [Position.mk.injEq]
    dsimp only at h1 h3
    constructor <;> omega
  rw [hp] at hmem
  apply hmem
  unfold Field.cellPred
  rw [hget]
  exact hv

theorem Game.Inv.head_marked {g : Game} (hInv : g.Inv) :
    ∃ d, g.field.get_position g.snake.headI = some (Block.snakeHead d) := by
  obtain ⟨-, -, -, hhead, -, -⟩ := hInv
  unfold Field.cellPred at hhead
  rcases hg : g.field.get_position g.snake.headI with _ | v
  · rw [hg] at hhead; simp at hhead
  · rw [hg] at hhead
    cases v
    case snakeHead d => exact ⟨d, rfl⟩
    all_goals simp [Block.isHeadMark] at hhead

theorem Game.Inv.mem_marked {g : Game} (hInv : g.Inv) {p : Position}
    (hp : p ∈ g.snake) :
    ∃ v, g.field.get_position p = some v ∧ v.isBodyMark = true := by
  have hInv' := hInv
  obtain ⟨hwf, hne, hnd, hhead, hbody, hgrid⟩ := hInv'
  rcases hsl : g.snake with _ | ⟨oh, rest⟩
  · rw [hsl] at hp; cases hp
  · rw [hsl] at hp
    rcases List.mem_cons.mp hp with rfl | hp'
    · obtain ⟨d, hd⟩ := hInv.head_marked
      rw [hsl] at hd
      exact ⟨Block.snakeHead d, hd, rfl⟩
    · have hps := hbody p (by rw [hsl]; exact hp')
      exact ⟨Block.snake, hps, rfl⟩

theorem Game.Inv.not_mem_of_get {g : Game} (hInv : g.Inv) {p : Position}
    {v : Block} (hget : g.field.get_position p = some v)
    (hv : v.isBodyMark = false) : p ∉ g.snake := by
  intro hmem
  obtain ⟨w, hw, hwmark⟩ := hInv.mem_marked hmem
  rw [hget] at hw
  cases hw
  rw [hwmark] at hv
  cases hv

theorem Field.InB_of_dims {f f' : Field} {p : Position}
    (hw : f'.width = f.width) (hh : f'.height = f.height) (h : f.InB p) :
    f'.InB p := by
  obtain ⟨h1, h2, h3, h4⟩ := h
  exact ⟨h1, by rw [hw]; exact h2, h3, by rw [hh]; exact h4⟩

/-! ### The three branches of one simulation step -/

/-- The `Empty` branch of `Game::update`: the step succeeds, the head
advances, the tail is shed, and the grid changes at exactly the three
touched cells. -/
theorem Game.step_empty {g : Game} {oh : Position} {rest : List Position}
    (hsnake : g.snake = oh :: rest) (hInv : g.Inv) (k : Nat)
    (hget : g.field.get_position (oh.step g.direction) = some Block.empty) :
    ∃ f1 f2 f3,
      g.field.set_position (oh.step g.direction)
        (Block.snakeHead g.direction) = some f1 ∧
      f1.set_position oh Block.snake = some f2 ∧
      f2.set_position ((oh :: rest).getLast (List.cons_ne_nil oh rest))
        Block.empty = some f3 ∧
      g.update k = some (State.playing,
        { g with field := f3,
                 snake := oh.step g.direction :: (oh :: rest).dropLast }) ∧
      f3.WF ∧ f3.width = g.field.width ∧ f3.height = g.field.height ∧
      ∀ q, f3.get_position q =
        if q = (oh :: rest).getLast (List.cons_ne_nil oh rest)
          then some Block.empty
        else if q = oh then some Block.snake
        else if q = oh.step g.direction
          then some (Block.snakeHead g.direction)
        else g.field.get_position q := by
  have hwf : g.field.WF := hInv.1
  have hInB_new : g.field.InB (oh.step g.direction) :=
    Field.get_position_ne_wall_inB hget (by simp)
  obtain ⟨f1, hf1⟩ :=
    hwf.set_position_isSome hInB_new (Block.snakeHead g.direction)
  have hwf1 : f1.WF := hwf.set_position hf1
  obtain ⟨hw1, hh1⟩ := Field.set_position_dims hf1
  obtain ⟨d0, hd0⟩ : ∃ d, g.field.get_position oh = some (Block.snakeHead d) := by
    have hh := hInv.head_marked
    rw [hsnake] at hh
    simpa using hh
  have hInB_oh : g.field.InB oh := Field.get_position_ne_wall_inB hd0 (by simp)
  obtain ⟨f2, hf2⟩ :=
    hwf1.set_position_isSome (Field.InB_of_dims hw1 hh1 hInB_oh) Block.snake
  have hwf2 : f2.WF := hwf1.set_position hf2
  obtain ⟨hw2, hh2⟩ := Field.set_position_dims hf2
  have htl_mem : (oh :: rest).getLast (List.cons_ne_nil oh rest) ∈ g.snake := by
    rw [hsnake]; exact List.getLast_mem _
  obtain ⟨vt, hvt, hvtm⟩ := hInv.mem_marked htl_mem
  have hInB_tl : g.field.InB ((oh :: rest).getLast (List.cons_ne_nil oh rest)) :=
    Field.get_position_ne_wall_inB hvt (by
      intro hc; subst hc; simp [Block.isBodyMark] at hvtm)
  obtain ⟨f3, hf3⟩ := hwf2.set_position_isSome
    (Field.InB_of_dims (by rw [hw2, hw1]) (by rw [hh2, hh1]) hInB_tl)
    Block.empty
  obtain ⟨hw3, hh3⟩ := Field.set_position_dims hf3
  refine ⟨f1, f2, f3, hf1, hf2, hf3, ?_, hwf2.set_position hf3,
    by rw [hw3, hw2, hw1], by rw [hh3, hh2, hh1], ?_⟩
  · unfold Game.update
    rw [hsnake]
    dsimp only
    rw [hget]
    dsimp only
    rw [hf1, Option.some_bind, hf2, Option.some_bind]
    rw [List.getLast_cons (List.cons_ne_nil oh rest), hf3]
    simp [hsnake]
  · intro q
    rw [Field.get_position_set hwf2 hf3 q]
    by_cases h1 : q = (oh :: rest).getLast (List.cons_ne_nil oh rest)
    · rw [if_pos h1, if_pos h1]
    · rw [if_neg h1, if_neg h1, Field.get_position_set hwf1 hf2 q]
      by_cases h2 : q = oh
      · rw [if_pos h2, if_pos h2]
      · rw [if_neg h2, if_neg h2, Field.get_position_set hwf hf1 q]

/-- The collision branch of `Game::update`: a `Snake`, `SnakeHead(_)` or
`Wall` marker one step ahead produces `Lost`, with the grid untouched and
only the tentative head push left on the body sequence. -/
theorem Game.step_blocked {g : Game} {oh : Position} {rest : List Position}
    (hsnake : g.snake = oh :: rest) {v : Block}
    (hget : g.field.get_position (oh.step g.direction) = some v)
    (hv : v = Block.snake ∨ (∃ d, v = Block.snakeHead d) ∨ v = Block.wall)
    (k : Nat) :
    g.update k = some (State.lost,
      { g with snake := oh.step g.direction :: oh :: rest }) := by
  unfold Game.update
  rw [hsnake]
  dsimp only
  rw [hget]
  rcases hv with rfl | ⟨d, rfl⟩ | rfl <;> rfl

/-- The `Food` branch of `Game::update`, by inversion of a successful step:
the outcome is `Playing`, the tail is kept, and the grid changes at the
new head, the old head, and one previously `Empty` cell that receives the
relocated food. -/
theorem Game.step_food {g : Game} {oh : Position} {rest : List Position}
    (hsnake : g.snake = oh :: rest) (hInv : g.Inv) {k : Nat}
    (hget : g.field.get_position (oh.step g.direction) = some Block.food)
    {st : State} {g' : Game} (hup : g.update k = some (st, g')) :
    st = State.playing ∧ ∃ f1 f2 f3 chosen,
      g.field.set_position (oh.step g.direction)
        (Block.snakeHead g.direction) = some f1 ∧
      f1.set_position oh Block.snake = some f2 ∧
      f2.get_position chosen = some Block.empty ∧
      f2.set_position chosen Block.food = some f3 ∧
      g' = { g with field := f3,
                    snake := oh.step g.direction :: oh :: rest } ∧
      f3.WF ∧ f3.width = g.field.width ∧ f3.height = g.field.height ∧
      g.field.get_position chosen = some Block.empty ∧
      ∀ q, f3.get_position q =
        if q = chosen then some Block.food
        else if q = oh then some Block.snake
        else if q = oh.step g.direction
          then some (Block.snakeHead g.direction)
        else g.field.get_position q := by
  have hwf : g.field.WF := hInv.1
  have hInB_new : g.field.InB (oh.step g.direction) :=
    Field.get_position_ne_wall_inB hget (by simp)
  obtain ⟨f1, hf1⟩ :=
    hwf.set_position_isSome hInB_new (Block.snakeHead g.direction)
  have hwf1 : f1.WF := hwf.set_position hf1
  obtain ⟨hw1, hh1⟩ := Field.set_position_dims hf1
  obtain ⟨d0, hd0⟩ : ∃ d, g.field.get_position oh = some (Block.snakeHead d) := by
    have hh := hInv.head_marked
    rw [hsnake] at hh
    simpa using hh
  have hInB_oh : g.field.InB oh := Field.get_position_ne_wall_inB hd0 (by simp)
  obtain ⟨f2, hf2⟩ :=
    hwf1.set_position_isSome (Field.InB_of_dims hw1 hh1 hInB_oh) Block.snake
  have hwf2 : f2.WF := hwf1.set_position hf2
  obtain ⟨hw2, hh2⟩ := Field.set_position_dims hf2
  have hnew_ne_oh : oh.step g.direction ≠ oh := by
    intro hc; rw [hc, hd0] at hget; cases hget
  -- the step within hup, reduced to the food branch
  unfold Game.update at hup
  rw [hsnake] at hup
  dsimp only at hup
  rw [hget] at hup
  dsimp only at hup
  rw [hf1, Option.some_bind, hf2, Option.some_bind] at hup
  rcases hpf : f2.place_food k with _ | f3
  · rw [hpf] at hup; exact absurd hup (by simp)
  · rw [hpf] at hup
    simp only [Option.map_some'] at hup
    obtain ⟨hst, hg'⟩ := Prod.mk.injEq .. ▸ Option.some_inj.mp hup
    obtain ⟨chosen, hmem, hset3⟩ := Field.place_food_eq_some hpf
    have hchosen_empty2 : f2.get_position chosen = some Block.empty :=
      (Field.mem_allowed_positions.mp hmem).2
    -- translate the emptiness of `chosen` back to the original grid
    have hdesc2 : ∀ q, f2.get_position q =
        if q = oh then some Block.snake
        else if q = oh.step g.direction
          then some (Block.snakeHead g.direction)
        else g.field.get_position q := by
      intro q
      rw [Field.get_position_set hwf1 hf2 q]
      by_cases h2 : q = oh
      · rw [if_pos h2, if_pos h2]
      · rw [if_neg h2, if_neg h2, Field.get_position_set hwf hf1 q]
    have hchosen_ne_oh : chosen ≠ oh := by
      intro hc
      rw [hdesc2 chosen, if_pos hc] at hchosen_empty2
      cases hchosen_empty2
    have hchosen_ne_new : chosen ≠ oh.step g.direction := by
      intro hc
      rw [hdesc2 chosen, if_neg hchosen_ne_oh, if_pos hc] at hchosen_empty2
      cases hchosen_empty2
    have hchosen_empty : g.field.get_position chosen = some Block.empty := by
      rw [hdesc2 chosen, if_neg hchosen_ne_oh, if_neg hchosen_ne_new]
        at hchosen_empty2
      exact hchosen_empty2
    obtain ⟨hw3, hh3⟩ := Field.set_position_dims hset3
    refine ⟨hst.symm, f1, f2, f3, chosen, hf1, hf2, hchosen_empty2, hset3,
      ?_, hwf2.set_position hset3,
      by rw [hw3, hw2, hw1], by rw [hh3, hh2, hh1], hchosen_empty, ?_⟩
    · rw [← hg']
    · intro q
      rw [Field.get_position_set hwf2 hset3 q]
      by_cases h1 : q = chosen
      · rw [if_pos h1, if_pos h1]
      · rw [if_neg h1, if_neg h1, hdesc2 q]

/-- In the `Food` branch, the step succeeds whenever some `Empty` cell
exists on the grid (food relocation has a candidate). -/
theorem Game.step_food_progress {g : Game} {oh : Position}
    {rest : List Position} (hsnake : g.snake = oh :: rest) (hInv : g.Inv)
    (k : Nat)
    (hget : g.field.get_position (oh.step g.direction) = some Block.food)
    (hemp : ∃ q, g.field.get_position q = some Block.empty) :
    ∃ g', g.update k = some (State.playing, g') := by
  have hwf : g.field.WF := hInv.1
  have hInB_new : g.field.InB (oh.step g.direction) :=
    Field.get_position_ne_wall_inB hget (by simp)
  obtain ⟨f1, hf1⟩ :=
    hwf.set_position_isSome hInB_new (Block.snakeHead g.direction)
  have hwf1 : f1.WF := hwf.set_position hf1
  obtain ⟨hw1, hh1⟩ := Field.set_position_dims hf1
  obtain ⟨d0, hd0⟩ : ∃ d, g.field.get_position oh = some (Block.snakeHead d) := by
    have hh := hInv.head_marked
    rw [hsnake] at hh
    simpa using hh
  have hInB_oh : g.field.InB oh := Field.get_position_ne_wall_inB hd0 (by simp)
  obtain ⟨f2, hf2⟩ :=
    hwf1.set_position_isSome (Field.InB_of_dims hw1 hh1 hInB_oh) Block.snake
  have hwf2 : f2.WF := hwf1.set_position hf2
  have hdesc2 : ∀ q, f2.get_position q =
      if q = oh then some Block.snake
      else if q = oh.step g.direction
        then some (Block.snakeHead g.direction)
      else g.field.get_position q := by
    intro q
    rw [Field.get_position_set hwf1 hf2 q]
    by_cases h2 : q = oh
    · rw [if_pos h2, if_pos h2]
    · rw [if_neg h2, if_neg h2, Field.get_position_set hwf hf1 q]
  obtain ⟨q0, hq0⟩ := hemp
  have hq0_ne_oh : q0 ≠ oh := by
    intro hc; rw [hc, hd0] at hq0; cases hq0
  have hq0_ne_new : q0 ≠ oh.step g.direction := by
    intro hc; rw [hc, hget] at hq0; cases hq0
  have hq0f2 : f2.get_position q0 = some Block.empty := by
    rw [hdesc2 q0, if_neg hq0_ne_oh, if_neg hq0_ne_new]
    exact hq0
  have hne : f2.allowed_positions ≠ [] :=
    List.ne_nil_of_mem (Field.mem_allowed_of_empty hq0f2)
  obtain ⟨chosen, f3, hpf, -, -⟩ := Field.place_food_spec hwf2 hne (k := k)
  refine ⟨{ g with field := f3, snake := oh.step g.direction :: oh :: rest }, ?_⟩
  unfold Game.update
  rw [hsnake]
  dsimp only
  rw [hget]
  dsimp only
  rw [hf1, Option.some_bind, hf2, Option.some_bind, hpf]
  simp [hsnake]

/-! ### Preservation of the lockstep invariant -/

theorem getLast_not_mem_dropLast {α : Type} {l : List α} (h : l ≠ [])
    (hnd : l.Nodup) : l.getLast h ∉ l.dropLast := by
  intro hmem
  have hdec := List.dropLast_append_getLast h
  rw [← hdec, List.nodup_append] at hnd
  exact hnd.2.2 hmem (List.mem_singleton_self _)

theorem mem_dropLast_of_ne_getLast {α : Type} {l : List α} (h : l ≠ [])
    {a : α} (ha : a ∈ l) (hne : a ≠ l.getLast h) : a ∈ l.dropLast := by
  have hdec := List.dropLast_append_getLast h
  rw [← hdec] at ha
  rcases List.mem_append.mp ha with h1 | h1
  · exact h1
  · exact absurd (List.mem_singleton.mp h1) hne

theorem Field.cellPred_iff {f : Field} {p : Position} {pred : Block → Bool} :
    f.cellPred p pred = true ↔
      ∃ v, f.get_position p = some v ∧ pred v = true := by
  unfold Field.cellPred
  cases hg : f.get_position p <;> simp

/-- The `Empty` branch of one step preserves the lockstep invariant. -/
theorem Game.step_empty_inv {g : Game} {oh : Position} {rest : List Position}
    (hsnake : g.snake = oh :: rest) (hInv : g.Inv) {k : Nat}
    (hget : g.field.get_position (oh.step g.direction) = some Block.empty)
    {g' : Game} (hup : g.update k = some (State.playing, g')) : g'.Inv := by
  obtain ⟨f1, f2, f3, -, -, -, heq, hwf3, hw3, hh3, hdesc⟩ :=
    Game.step_empty hsnake hInv k hget
  rw [heq] at hup
  have hg' : { g with field := f3, snake := oh.step g.direction :: (oh :: rest).dropLast } = g' :=
    congrArg Prod.snd (Option.some_inj.mp hup)
  subst hg'
  have hnotmem : (oh.step g.direction) ∉ g.snake := hInv.not_mem_of_get hget rfl
  have hoh_mem : oh ∈ g.snake := by rw [hsnake]; exact List.mem_cons_self _ _
  have htl_mem : (oh :: rest).getLast (List.cons_ne_nil oh rest) ∈ g.snake := by
    rw [hsnake]; exact List.getLast_mem _
  have hnew_ne_oh : oh.step g.direction ≠ oh :=
    fun hc => hnotmem (by rw [hc]; exact hoh_mem)
  have hnew_ne_tl :
      oh.step g.direction ≠ (oh :: rest).getLast (List.cons_ne_nil oh rest) :=
    fun hc => hnotmem (by rw [hc]; exact htl_mem)
  have hnd : (oh :: rest).Nodup := by rw [← hsnake]; exact hInv.2.2.1
  have htl_not_dl :
      (oh :: rest).getLast (List.cons_ne_nil oh rest) ∉ (oh :: rest).dropLast :=
    getLast_not_mem_dropLast (List.cons_ne_nil oh rest) hnd
  have hbodym := hInv.2.2.2.2.1
  refine ⟨hwf3, by simp, ?_, ?_, ?_, ?_⟩
  · -- no duplicate coordinates
    refine List.nodup_cons.mpr ⟨?_, List.Nodup.sublist (List.dropLast_sublist _) hnd⟩
    intro hc
    exact hnotmem (by
      rw [hsnake]
      exact (List.dropLast_sublist (oh :: rest)).subset hc)
  · -- the front is marked SnakeHead
    show Field.cellPred _ _ _ = true
    rw [Field.cellPred_iff]
    refine ⟨Block.snakeHead g.direction, ?_, rfl⟩
    show f3.get_position (oh.step g.direction) = _
    rw [hdesc _, if_neg hnew_ne_tl, if_neg hnew_ne_oh, if_pos rfl]
  · -- the rest is marked Snake
    intro p hp
    have hp' : p ∈ (oh :: rest).dropLast := hp
    have hp_mem : p ∈ g.snake := by
      rw [hsnake]; exact (List.dropLast_sublist _).subset hp'
    have hp_ne_tl : p ≠ (oh :: rest).getLast (List.cons_ne_nil oh rest) :=
      fun hc => htl_not_dl (hc ▸ hp')
    have hp_ne_new : p ≠ oh.step g.direction :=
      fun hc => hnotmem (hc ▸ hp_mem)
    show f3.get_position p = some Block.snake
    rw [hdesc p, if_neg hp_ne_tl]
    by_cases hpo : p = oh
    · rw [if_pos hpo]
    · rw [if_neg hpo, if_neg hp_ne_new]
      have hp_rest : p ∈ rest := by
        rw [hsnake] at hp_mem
        rcases List.mem_cons.mp hp_mem with hc | hc
        · exact absurd hc hpo
        · exact hc
      exact hbodym p (by rw [hsnake]; exact hp_rest)
  · -- every marked cell is a body coordinate
    intro y hy x hx hcp
    obtain ⟨v, hv, hvm⟩ := Field.cellPred_iff.mp hcp
    rw [hdesc _] at hv
    by_cases h1 : (⟨(x : Int), (y : Int)⟩ : Position)
        = (oh :: rest).getLast (List.cons_ne_nil oh rest)
    · rw [if_pos h1] at hv
      cases hv
      cases hvm
    · rw [if_neg h1] at hv
      by_cases h2 : (⟨(x : Int), (y : Int)⟩ : Position) = oh
      · rw [if_pos h2] at hv
        refine List.mem_cons_of_mem _ ?_
        rw [h2]
        exact mem_dropLast_of_ne_getLast _ (List.mem_cons_self _ _)
          (fun hc => h1 (h2.trans hc))
      · rw [if_neg h2] at hv
        by_cases h3 : (⟨(x : Int), (y : Int)⟩ : Position) = oh.step g.direction
        · rw [h3]; exact List.mem_cons_self _ _
        · rw [if_neg h3] at hv
          have hmem := hInv.mark_mem hv hvm
          rw [hsnake] at hmem
          exact List.mem_cons_of_mem _
            (mem_dropLast_of_ne_getLast _ hmem h1)

/-- The `Food` branch of one step preserves the lockstep invariant. -/
theorem Game.step_food_inv {g : Game} {oh : Position} {rest : List Position}
    (hsnake : g.snake = oh :: rest) (hInv : g.Inv) {k : Nat}
    (hget : g.field.get_position (oh.step g.direction) = some Block.food)
    {st : State} {g' : Game} (hup : g.update k = some (st, g')) : g'.Inv := by
  obtain ⟨-, f1, f2, f3, chosen, -, -, -, -, hg', hwf3, hw3, hh3,
    hchosen_empty, hdesc⟩ := Game.step_food hsnake hInv hget hup
  subst hg'
  have hnotmem : (oh.step g.direction) ∉ g.snake := hInv.not_mem_of_get hget rfl
  have hchosen_notmem : chosen ∉ g.snake :=
    hInv.not_mem_of_get hchosen_empty rfl
  have hoh_mem : oh ∈ g.snake := by rw [hsnake]; exact List.mem_cons_self _ _
  have hnew_ne_oh : oh.step g.direction ≠ oh :=
    fun hc => hnotmem (by rw [hc]; exact hoh_mem)
  have hchosen_ne_new : chosen ≠ oh.step g.direction := by
    intro hc; rw [hc, hget] at hchosen_empty; cases hchosen_empty
  have hbodym := hInv.2.2.2.2.1
  refine ⟨hwf3, by simp, ?_, ?_, ?_, ?_⟩
  · refine List.nodup_cons.mpr ⟨by rw [← hsnake]; exact hnotmem, ?_⟩
    rw [← hsnake]; exact hInv.2.2.1
  · show Field.cellPred _ _ _ = true
    rw [Field.cellPred_iff]
    refine ⟨Block.snakeHead g.direction, ?_, rfl⟩
    show f3.get_position (oh.step g.direction) = _
    rw [hdesc _, if_neg (fun hc => hchosen_ne_new hc.symm),
      if_neg hnew_ne_oh, if_pos rfl]
  · intro p hp
    have hp2 : p ∈ oh :: rest := hp
    have hp_mem : p ∈ g.snake := by rw [hsnake]; exact hp2
    have hp_ne_chosen : p ≠ chosen := fun hc => hchosen_notmem (hc ▸ hp_mem)
    show f3.get_position p = some Block.snake
    rw [hdesc p, if_neg hp_ne_chosen]
    by_cases hpo : p = oh
    · rw [if_pos hpo]
    · have hp_ne_new : p ≠ oh.step g.direction :=
        fun hc => hnotmem (hc ▸ hp_mem)
      rw [if_neg hpo, if_neg hp_ne_new]
      have hp_rest : p ∈ rest := by
        rcases List.mem_cons.mp hp2 with hc | hc
        · exact absurd hc hpo
        · exact hc
      exact hbodym p (by rw [hsnake]; exact hp_rest)
  · intro y hy x hx hcp
    obtain ⟨v, hv, hvm⟩ := Field.cellPred_iff.mp hcp
    rw [hdesc _] at hv
    by_cases h1 : (⟨(x : Int), (y : Int)⟩ : Position) = chosen
    · rw [if_pos h1] at hv
      cases hv
      cases hvm
    · rw [if_neg h1] at hv
      by_cases h2 : (⟨(x : Int), (y : Int)⟩ : Position) = oh
      · rw [h2]; exact List.mem_cons_of_mem _ (List.mem_cons_self _ _)
      · rw [if_neg h2] at hv
        by_cases h3 : (⟨(x : Int), (y : Int)⟩ : Position) = oh.step g.direction
        · rw [h3]; exact List.mem_cons_self _ _
        · rw [if_neg h3] at hv
          have hmem := hInv.mark_mem hv hvm
          rw [hsnake] at hmem
          exact List.mem_cons_of_mem _ hmem

/-- Inversion of a losing step: the grid is untouched and the body kept
the tentative head push. -/
theorem Game.update_lost {g g' : Game} {k : Nat}
    (hup : g.update k = some (State.lost, g')) :
    ∃ oh rest, g.snake = oh :: rest ∧
      g'.snake = oh.step g.direction :: oh :: rest ∧ g'.field = g.field := by
  rcases hsl : g.snake with _ | ⟨oh, rest⟩
  · unfold Game.update at hup
    rw [hsl] at hup
    cases hup
  · refine ⟨oh, rest, rfl, ?_⟩
    unfold Game.update at hup
    rw [hsl] at hup
    dsimp only at hup
    rcases hv : g.field.get_position (oh.step g.direction) with _ | v
    · rw [hv] at hup; cases hup
    · rw [hv] at hup
      cases v
      case empty =>
        dsimp only at hup
        rcases h1 : g.field.set_position (oh.step g.direction)
            (Block.snakeHead g.direction) with _ | f1
        · rw [h1] at hup; cases hup
        · rw [h1, Option.some_bind] at hup
          rcases h2 : f1.set_position oh Block.snake with _ | f2
          · rw [h2] at hup; cases hup
          · rw [h2, Option.some_bind] at hup
            rcases h3 : f2.set_position
                ((oh.step g.direction :: oh :: rest).getLast
                  (List.cons_ne_nil _ _)) Block.empty with _ | f3
            · rw [h3] at hup; cases hup
            · rw [h3] at hup
              simp at hup
      case food =>
        dsimp only at hup
        rcases h1 : g.field.set_position (oh.step g.direction)
            (Block.snakeHead g.direction) with _ | f1
        · rw [h1] at hup; cases hup
        · rw [h1, Option.some_bind] at hup
          rcases h2 : f1.set_position oh Block.snake with _ | f2
          · rw [h2] at hup; cases hup
          · rw [h2, Option.some_bind] at hup
            rcases h3 : f2.place_food k with _ | f3
            · rw [h3] at hup; cases hup
            · rw [h3] at hup
              simp at hup
      case snake =>
        dsimp only at hup
        have h := congrArg Prod.snd (Option.some_inj.mp hup)
        dsimp only at h
        exact ⟨by rw [← h], by rw [← h]⟩
      case snakeHead d =>
        dsimp only at hup
        have h := congrArg Prod.snd (Option.some_inj.mp hup)
        dsimp only at h
        exact ⟨by rw [← h], by rw [← h]⟩
      case wall =>
        dsimp only at hup
        have h := congrArg Prod.snd (Option.some_inj.mp hup)
        dsimp only at h
        exact ⟨by rw [← h], by rw [← h]⟩

/-! ### The claims -/

/-- C1: `get_position` returns `Wall` (the spec `Boundary`) for every
coordinate outside `[0,width) x [0,height)` on every grid, returns the
stored marker for every in-bounds coordinate, and a game whose head would
step out of bounds loses on `update`. -/
theorem c1_boundary :
    (∀ (f : Field) (p : Position), ¬ f.InB p →
      f.get_position p = some Block.wall) ∧
    (∀ (f : Field) (p : Position), f.InB p →
      f.get_position p = (f.field.get? p.y.toNat).bind fun row =>
        row.get? p.x.toNat) ∧
    ∀ (g : Game) (k : Nat) (oh : Position) (rest : List Position),
      g.snake = oh :: rest →
      ¬ g.field.InB (oh.step g.direction) →
      ∃ g', g.update k = some (State.lost, g') := by
  refine ⟨fun f p hp => Field.get_position_of_not_inB hp,
    fun f p hp => Field.get_position_inB hp, ?_⟩
  intro g k oh rest hsnake hout
  exact ⟨_, Game.step_blocked hsnake (Field.get_position_of_not_inB hout)
    (Or.inr (Or.inr rfl)) k⟩

/-- Witness for C1 at a concrete out-of-bounds step. -/
theorem c1_boundary_witness :
    ∃ g', Gout.update 0 = some (State.lost, g') :=
  c1_boundary.2.2 Gout 0 ⟨0, 0⟩ [⟨1, 0⟩] rfl (by decide)

/-- C2: requesting the exact opposite of the current heading leaves the
heading unchanged; any other request is committed. -/
theorem c2_reversal_suppression :
    (∀ h : Direction, Direction.set h h.opposite = h) ∧
    ∀ h r : Direction, r ≠ h.opposite → Direction.set h r = r := by
  constructor
  · intro h
    cases h <;> rfl
  · intro h r hr
    cases h <;> cases r <;> first | rfl | exact absurd rfl hr

/-- Witness for C2 at a concrete non-opposite request. -/
theorem c2_reversal_suppression_witness :
    Direction.set Direction.up Direction.left = Direction.left :=
  c2_reversal_suppression.2 Direction.up Direction.left (by decide)

/-- C5: a `Snake`, `SnakeHead(_)` or `Wall` marker one step ahead makes
`update` report `Lost` with every grid cell unchanged. -/
theorem c5_collision_lost_no_mutation :
    ∀ (g : Game) (k : Nat) (oh : Position) (rest : List Position) (v : Block),
      g.snake = oh :: rest →
      g.field.get_position (oh.step g.direction) = some v →
      (v = Block.snake ∨ (∃ d, v = Block.snakeHead d) ∨ v = Block.wall) →
      ∃ g', g.update k = some (State.lost, g') ∧ g'.field = g.field ∧
        ∀ q, g'.field.get_position q = g.field.get_position q := by
  intro g k oh rest v hsnake hget hv
  exact ⟨_, Game.step_blocked hsnake hget hv k, rfl, fun q => rfl⟩

/-- Witness for C5 at a concrete self-collision. -/
theorem c5_collision_lost_no_mutation_witness :
    ∃ g', Gtail.update 0 = some (State.lost, g') ∧ g'.field = Gtail.field ∧
      ∀ q, g'.field.get_position q = Gtail.field.get_position q :=
  c5_collision_lost_no_mutation Gtail 0 ⟨1, 0⟩ [⟨0, 0⟩] Block.snake rfl
    (by decide) (Or.inl rfl)

/-- C9: when the cell one step ahead is the tail coordinate, the step
loses: the collision lookup happens before the tail cell is cleared. -/
theorem c9_tail_collision_lost :
    ∀ (g : Game) (k : Nat) (oh : Position) (rest : List Position),
      g.snake = oh :: rest → g.Inv → 2 ≤ g.snake.length →
      oh.step g.direction = (oh :: rest).getLast (List.cons_ne_nil oh rest) →
      ∃ g', g.update k = some (State.lost, g') := by
  intro g k oh rest hsnake hInv hlen htl
  have hrest_ne : rest ≠ [] := by
    intro hc
    rw [hsnake, hc] at hlen
    simp at hlen
  have hgl : (oh :: rest).getLast (List.cons_ne_nil oh rest)
      = rest.getLast hrest_ne := List.getLast_cons hrest_ne
  have hmem : rest.getLast hrest_ne ∈ rest := List.getLast_mem hrest_ne
  have hbodym := hInv.2.2.2.2.1
  have hmark : g.field.get_position
      ((oh :: rest).getLast (List.cons_ne_nil oh rest)) = some Block.snake := by
    rw [hgl]
    exact hbodym _ (by rw [hsnake]; exact hmem)
  exact ⟨_, Game.step_blocked hsnake (by rw [htl]; exact hmark)
    (Or.inl rfl) k⟩

/-- Witness for C9 at a concrete step into the tail. -/
theorem c9_tail_collision_lost_witness :
    ∃ g', Gtail.update 0 = some (State.lost, g') :=
  c9_tail_collision_lost Gtail 0 ⟨1, 0⟩ [⟨0, 0⟩] rfl (by decide) (by decide)
    (by decide)

/-- C10: `get_position` is total: `Field::new` establishes the storage
shape, a well-shaped grid answers every query with some marker, and every
successful `set_position` preserves the shape. -/
theorem c10_get_total :
    (∀ w h : Nat, (Field.new w h).WF) ∧
    (∀ f : Field, f.WF → ∀ p, ∃ b, f.get_position p = some b) ∧
    ∀ (f : Field) (p : Position) (b : Block) (f' : Field),
      f.WF → f.set_position p b = some f' → f'.WF := by
  refine ⟨?_, ?_, ?_⟩
  · intro w h
    constructor
    · simp [Field.new]
    · intro row hrow
      rw [List.eq_of_mem_replicate hrow]
      simp [Field.new]
  · intro f hwf p
    by_cases hp : f.InB p
    · exact hwf.get_position_isSome hp
    · exact ⟨Block.wall, Field.get_position_of_not_inB hp⟩
  · intro f p b f' hwf h
    exact hwf.set_position h

/-- Witness for C10 at a concrete out-of-range query on a fresh grid. -/
theorem c10_get_total_witness :
    ∃ b, (Field.new 2 2).get_position ⟨-3, 1⟩ = some b :=
  c10_get_total.2.1 (Field.new 2 2) (c10_get_total.1 2 2) ⟨-3, 1⟩

/-- C7: on a losing step the printed score `snake.len() - 3`, taken on
the state still holding the tentative head push, equals the final body
length minus the `2` initial segments; the in-play render embeds
`length - 2`. -/
theorem c7_score_accounting :
    ∀ (g : Game) (k : Nat) (g' : Game),
      g.update k = some (State.lost, g') →
      g'.game_over_score = g.snake.length - 2 ∧
      draw_score g.snake.length = g.snake.length - 2 := by
  intro g k g' hup
  obtain ⟨oh, rest, hsl, hsnake', -⟩ := Game.update_lost hup
  refine ⟨?_, rfl⟩
  unfold Game.game_over_score
  rw [hsnake', hsl]
  simp only [List.length_cons]
  omega

/-- Witness for C7 at a concrete losing step. -/
theorem c7_score_accounting_witness :
    Game.game_over_score { Gout with
      snake := Position.step ⟨0, 0⟩ Direction.left :: Gout.snake }
        = Gout.snake.length - 2 ∧
    draw_score Gout.snake.length = Gout.snake.length - 2 :=
  c7_score_accounting Gout 0 { Gout with
      snake := Position.step ⟨0, 0⟩ Direction.left :: Gout.snake }
    (by decide)

theorem wait_for_unpause_skip :
    ∀ (mid rest : List Event), (∀ e ∈ mid, e ≠ pauseEvent) →
      wait_for_unpause (mid ++ pauseEvent :: rest) = some rest := by
  intro mid
  induction mid with
  | nil =>
    intro rest h
    show wait_for_unpause (pauseEvent :: rest) = some rest
    unfold wait_for_unpause
    rw [if_pos rfl]
  | cons e mid ih =>
    intro rest h
    show wait_for_unpause (e :: (mid ++ pauseEvent :: rest)) = some rest
    unfold wait_for_unpause
    rw [if_neg (h e (List.mem_cons_self _ _))]
    exact ih rest fun e2 he2 => h e2 (List.mem_cons_of_mem _ he2)

/-- C3: with an `Empty` cell ahead, the step returns `Playing`, pushes the
new head, sheds the old tail (length unchanged), marks the new head
`SnakeHead(heading)`, demotes the old head to `Snake`, clears the old
tail to `Empty`, and preserves the total `Empty` cell count. -/
theorem c3_empty_step_conservation :
    ∀ (g : Game) (k : Nat) (oh : Position) (rest : List Position),
      g.snake = oh :: rest → g.Inv → 2 ≤ g.snake.length →
      g.field.get_position (oh.step g.direction) = some Block.empty →
      ∃ g', g.update k = some (State.playing, g') ∧
        g'.snake = oh.step g.direction :: (oh :: rest).dropLast ∧
        g'.snake.length = g.snake.length ∧
        g'.field.get_position (oh.step g.direction)
          = some (Block.snakeHead g.direction) ∧
        g'.field.get_position oh = some Block.snake ∧
        g'.field.get_position ((oh :: rest).getLast (List.cons_ne_nil oh rest))
          = some Block.empty ∧
        g'.field.count_empty = g.field.count_empty := by
  intro g k oh rest hsnake hInv hlen hget
  obtain ⟨f1, f2, f3, hf1, hf2, hf3, heq, hwf3, hw3, hh3, hdesc⟩ :=
    Game.step_empty hsnake hInv k hget
  have hwf : g.field.WF := hInv.1
  have hwf1 : f1.WF := hwf.set_position hf1
  have hwf2 : f2.WF := hwf1.set_position hf2
  have hnotmem : (oh.step g.direction) ∉ g.snake := hInv.not_mem_of_get hget rfl
  have hoh_mem : oh ∈ g.snake := by rw [hsnake]; exact List.mem_cons_self _ _
  have htl_mem : (oh :: rest).getLast (List.cons_ne_nil oh rest) ∈ g.snake := by
    rw [hsnake]; exact List.getLast_mem _
  have hnew_ne_oh : oh.step g.direction ≠ oh :=
    fun hc => hnotmem (by rw [hc]; exact hoh_mem)
  have hnew_ne_tl :
      oh.step g.direction ≠ (oh :: rest).getLast (List.cons_ne_nil oh rest) :=
    fun hc => hnotmem (by rw [hc]; exact htl_mem)
  have hrest_ne : rest ≠ [] := by
    intro hc
    rw [hsnake, hc] at hlen
    simp at hlen
  have hnd : (oh :: rest).Nodup := by rw [← hsnake]; exact hInv.2.2.1
  have hoh_ne_tl : oh ≠ (oh :: rest).getLast (List.cons_ne_nil oh rest) := by
    intro hc
    rw [List.getLast_cons hrest_ne] at hc
    exact (List.nodup_cons.mp hnd).1 (hc ▸ List.getLast_mem hrest_ne)
  have htl_rest : (oh :: rest).getLast (List.cons_ne_nil oh rest) ∈ rest := by
    rw [List.getLast_cons hrest_ne]
    exact List.getLast_mem hrest_ne
  obtain ⟨d0, hd0⟩ : ∃ d, g.field.get_position oh = some (Block.snakeHead d) := by
    have hh := hInv.head_marked
    rw [hsnake] at hh
    simpa using hh
  have hbodym := hInv.2.2.2.2.1
  have htl_snake : g.field.get_position
      ((oh :: rest).getLast (List.cons_ne_nil oh rest)) = some Block.snake :=
    hbodym _ (by rw [hsnake]; exact htl_rest)
  refine ⟨_, heq, rfl, by simp [hsnake], ?_, ?_, ?_, ?_⟩
  · show f3.get_position _ = _
    rw [hdesc _, if_neg hnew_ne_tl, if_neg hnew_ne_oh, if_pos rfl]
  · show f3.get_position _ = _
    rw [hdesc _, if_neg hoh_ne_tl, if_pos rfl]
  · show f3.get_position _ = _
    rw [hdesc _, if_pos rfl]
  · show f3.count_empty = g.field.count_empty
    have hov2 : f1.get_position oh = some (Block.snakeHead d0) := by
      rw [Field.get_position_set hwf hf1 oh,
        if_neg (fun hc => hnew_ne_oh hc.symm), hd0]
    have hov3 : f2.get_position
        ((oh :: rest).getLast (List.cons_ne_nil oh rest))
          = some Block.snake := by
      rw [Field.get_position_set hwf1 hf2 _,
        if_neg (fun hc => hoh_ne_tl hc.symm),
        Field.get_position_set hwf hf1 _,
        if_neg (fun hc => hnew_ne_tl hc.symm), htl_snake]
    have hc1 := Field.countB_set hwf hf1 Block.isEmptyCell hget
    have hc2 := Field.countB_set hwf1 hf2 Block.isEmptyCell hov2
    have hc3 := Field.countB_set hwf2 hf3 Block.isEmptyCell hov3
    simp only [Block.isEmptyCell] at hc1 hc2 hc3
    simp at hc1 hc2 hc3
    unfold Field.count_empty
    omega

/-- Witness for C3 at a concrete empty-cell step of `G3`. -/
theorem c3_empty_step_conservation_witness :
    ∃ g', G3.update 0 = some (State.playing, g') ∧
      g'.snake = Position.step ⟨1, 1⟩ G3.direction
        :: ([⟨1, 1⟩, ⟨0, 1⟩] : List Position).dropLast ∧
      g'.snake.length = G3.snake.length ∧
      g'.field.get_position (Position.step ⟨1, 1⟩ G3.direction)
        = some (Block.snakeHead G3.direction) ∧
      g'.field.get_position ⟨1, 1⟩ = some Block.snake ∧
      g'.field.get_position
        (([⟨1, 1⟩, ⟨0, 1⟩] : List Position).getLast
          (List.cons_ne_nil _ _)) = some Block.empty ∧
      g'.field.count_empty = G3.field.count_empty :=
  c3_empty_step_conservation G3 0 ⟨1, 1⟩ [⟨0, 1⟩] rfl (by decide) (by decide)
    (by decide)

/-- C4: with `Food` ahead and an `Empty` cell left for relocation, the
step returns `Playing`, the body grows by exactly one, exactly one `Food`
cell remains, and the relocated food lands on a previously `Empty`
cell. -/
theorem c4_food_growth :
    ∀ (g : Game) (k : Nat) (oh : Position) (rest : List Position),
      g.snake = oh :: rest → g.Inv →
      g.field.get_position (oh.step g.direction) = some Block.food →
      (∃ q, g.field.get_position q = some Block.empty) →
      g.field.count_food = 1 →
      ∃ g', g.update k = some (State.playing, g') ∧
        g'.snake.length = g.snake.length + 1 ∧
        g'.field.count_food = 1 ∧
        ∃ chosen, g.field.get_position chosen = some Block.empty ∧
          g'.field.get_position chosen = some Block.food := by
  intro g k oh rest hsnake hInv hget hemp hcf
  obtain ⟨g', hup⟩ := Game.step_food_progress hsnake hInv k hget hemp
  obtain ⟨-, f1, f2, f3, chosen, hf1, hf2, hch2, hset3, hg', hwf3, hw3, hh3,
    hch, hdesc⟩ := Game.step_food hsnake hInv hget hup
  have hwf : g.field.WF := hInv.1
  have hwf1 : f1.WF := hwf.set_position hf1
  have hwf2 : f2.WF := hwf1.set_position hf2
  have hnotmem : (oh.step g.direction) ∉ g.snake := hInv.not_mem_of_get hget rfl
  have hoh_mem : oh ∈ g.snake := by rw [hsnake]; exact List.mem_cons_self _ _
  have hnew_ne_oh : oh.step g.direction ≠ oh :=
    fun hc => hnotmem (by rw [hc]; exact hoh_mem)
  obtain ⟨d0, hd0⟩ : ∃ d, g.field.get_position oh = some (Block.snakeHead d) := by
    have hh := hInv.head_marked
    rw [hsnake] at hh
    simpa using hh
  subst hg'
  refine ⟨_, hup, by simp [hsnake], ?_, chosen, hch, ?_⟩
  · show f3.count_food = 1
    have hov2 : f1.get_position oh = some (Block.snakeHead d0) := by
      rw [Field.get_position_set hwf hf1 oh,
        if_neg (fun hc => hnew_ne_oh hc.symm), hd0]
    have hc1 := Field.countB_set hwf hf1 Block.isFoodCell hget
    have hc2 := Field.countB_set hwf1 hf2 Block.isFoodCell hov2
    have hc3 := Field.countB_set hwf2 hset3 Block.isFoodCell hch2
    simp only [Block.isFoodCell] at hc1 hc2 hc3
    simp at hc1 hc2 hc3
    unfold Field.count_food at hcf ⊢
    omega
  · show f3.get_position chosen = some Block.food
    rw [hdesc chosen, if_pos rfl]

/-- Witness for C4 at a concrete food-consuming step of `GF`. -/
theorem c4_food_growth_witness :
    ∃ g', GF.update 0 = some (State.playing, g') ∧
      g'.snake.length = GF.snake.length + 1 ∧
      g'.field.count_food = 1 ∧
      ∃ chosen, GF.field.get_position chosen = some Block.empty ∧
        g'.field.get_position chosen = some Block.food :=
  c4_food_growth GF 0 ⟨1, 1⟩ [⟨0, 1⟩] rfl (by decide) (by decide)
    ⟨⟨0, 0⟩, by decide⟩ (by decide)

/-- C6: every simulation step that returns `Playing` preserves the
Grid/body lockstep invariant: body coordinates and `Snake`/`SnakeHead`
cells coincide, the front is the unique `SnakeHead` cell, and the body
has no duplicates. -/
theorem c6_lockstep_preserved :
    ∀ (g : Game) (k : Nat) (g' : Game),
      g.Inv → g.update k = some (State.playing, g') → g'.Inv := by
  intro g k g' hInv hup
  rcases hsl : g.snake with _ | ⟨oh, rest⟩
  · unfold Game.update at hup
    rw [hsl] at hup
    cases hup
  · rcases hv : g.field.get_position (oh.step g.direction) with _ | v
    · unfold Game.update at hup
      rw [hsl] at hup
      dsimp only at hup
      rw [hv] at hup
      cases hup
    · cases v
      case empty => exact Game.step_empty_inv hsl hInv hv hup
      case food => exact Game.step_food_inv hsl hInv hv hup
      case snake =>
        rw [Game.step_blocked hsl hv (Or.inl rfl) k] at hup
        exact State.noConfusion (congrArg Prod.fst (Option.some_inj.mp hup))
      case snakeHead d =>
        rw [Game.step_blocked hsl hv (Or.inr (Or.inl ⟨d, rfl⟩)) k] at hup
        exact State.noConfusion (congrArg Prod.fst (Option.some_inj.mp hup))
      case wall =>
        rw [Game.step_blocked hsl hv (Or.inr (Or.inr rfl)) k] at hup
        exact State.noConfusion (congrArg Prod.fst (Option.some_inj.mp hup))

/-- Witness for C6 at the concrete step `G3` to `G3res`. -/
theorem c6_lockstep_preserved_witness : G3res.Inv :=
  c6_lockstep_preserved G3 0 G3res (by decide) (by decide)

/-- C8: pressing pause and then the pause key again yields no intent and
leaves the whole game state (grid, body, heading, cycle time) unchanged;
the pause wait consumes events only, it runs no simulation step. -/
theorem c8_pause_resume :
    ∀ (g : Game) (mid rest : List Event),
      (∀ e ∈ mid, e ≠ pauseEvent) →
      poll_key (pauseEvent :: (mid ++ pauseEvent :: rest))
        = PollOutcome.intent none rest ∧
      g.apply_intent none = g := by
  intro g mid rest h
  refine ⟨?_, rfl⟩
  have hw := wait_for_unpause_skip mid rest h
  show poll_key (Event.key (KeyCode.char 'p') Modifiers.noMod
    :: (mid ++ pauseEvent :: rest)) = _
  change (match wait_for_unpause (mid ++ pauseEvent :: rest) with
    | some rest2 => PollOutcome.intent none rest2
    | none => PollOutcome.blocked) = _
  rw [hw]

/-- Witness for C8 at a concrete event stream. -/
theorem c8_pause_resume_witness :
    poll_key (pauseEvent :: ([Event.otherEvent]
        ++ pauseEvent :: [Event.key KeyCode.up Modifiers.noMod]))
      = PollOutcome.intent none [Event.key KeyCode.up Modifiers.noMod] ∧
    G3.apply_intent none = G3 :=
  c8_pause_resume G3 [Event.otherEvent]
    [Event.key KeyCode.up Modifiers.noMod] (by decide)

end CLIsnake
